import Mathlib

/-!
Verification of the ai-model-hub reverse proxy core against its
natural-language specification.  The TypeScript sources are shallowly
embedded: JavaScript `Map`s and plain objects used as string-keyed
dictionaries become insertion-ordered association lists (`StrMap`),
asynchronous side effects become explicit state passing, and the few
JavaScript truthiness tests the code relies on are modelled explicitly
(`0`, `""`, `undefined` are falsy).
-/

/-- Insertion-ordered string-keyed dictionary, the model of both JavaScript
`Map` objects and plain objects used as dictionaries in the source.  Key
order is insertion order, as iteration order is in JavaScript. -/
abbrev StrMap (α : Type) : Type := List (String × α)

/-- The empty dictionary. -/
def mempty {α : Type} : StrMap α := []

/-- Lookup (`m.get(k)` / `m[k]`): value of the first entry with key `k`. -/
def mget {α : Type} : StrMap α → String → Option α
  | [], _ => none
  | (k', v) :: t, k => if k' = k then some v else mget t k

/-- Update (`m.set(k, v)` / `m[k] = v`): replaces the value in place if the
key is present (keeping its position), otherwise appends a new entry. -/
def mset {α : Type} : StrMap α → String → α → StrMap α
  | [], k, v => [(k, v)]
  | (k', v') :: t, k, v => if k' = k then (k, v) :: t else (k', v') :: mset t k v

/-- Deletion (`m.delete(k)` / `delete m[k]`): removes the first entry with
key `k`. -/
def mdel {α : Type} : StrMap α → String → StrMap α
  | [], _ => []
  | (k', v') :: t, k => if k' = k then t else (k', v') :: mdel t k

/-- The keys of the dictionary in insertion order (`m.keys()`). -/
def mkeys {α : Type} (m : StrMap α) : List String := m.map (·.1)

/-- Number of entries (`m.size`). -/
def mlen {α : Type} (m : StrMap α) : Nat := m.length

/-- Whether `needle` occurs as a contiguous sublist of `hay`. -/
def listContains (needle : List Char) : List Char → Bool
  | [] => needle.isEmpty
  | c :: t => needle.isPrefixOf (c :: t) || listContains needle t

/-- Substring test, the model of JavaScript `String.prototype.includes`. -/
def strContains (hay needle : String) : Bool := listContains needle.data hay.data

/-! ## Append-only logger (src/logger.ts)

`pendingLogs` is a map from requestId to a staged partial update
(`Partial<LogEntry>` restricted to the token fields, which are the only
fields the call sites ever stage).  An `Option` field equal to `none`
models an absent object key. -/

/-- Staged partial log update (the token fields of `Partial<LogEntry>`). -/
structure LogUpdates where
  promptTokens : Option Nat
  completionTokens : Option Nat
  totalTokens : Option Nat
deriving Repr, DecidableEq

/-- The empty partial update `\x7b\x7d`. -/
def LogUpdates.empty : LogUpdates := ⟨none, none, none⟩

/-- JavaScript object spread: a field of `b`, when present, wins over the
same field of `a`. -/
def jsMergeField {α : Type} (a b : Option α) : Option α :=
  match b with
  | some x => some x
  | none => a

/-- Spread-merge of two partial updates (`\x7b...a, ...b\x7d`). -/
def LogUpdates.merge (a b : LogUpdates) : LogUpdates :=
  ⟨jsMergeField a.promptTokens b.promptTokens,
   jsMergeField a.completionTokens b.completionTokens,
   jsMergeField a.totalTokens b.totalTokens⟩

/-- Model of `updateLogEntry` (logger.ts:73-83): stages a partial update for
`requestId` in the pending table by spread-merging onto whatever was
already staged; nothing is written to the log file here. -/
def updateLogEntry (pending : StrMap LogUpdates) (requestId : String)
    (updates : LogUpdates) : StrMap LogUpdates :=
  let pendingUpdate := (mget pending requestId).getD LogUpdates.empty
  mset pending requestId (pendingUpdate.merge updates)

/-- Truthiness of an optional number (JavaScript: `undefined` and `0` are
falsy). -/
def jsTruthyNat (o : Option Nat) : Bool :=
  match o with
  | none => false
  | some n => n != 0

/-- One response log line as written by `logResponse` (undefined fields are
dropped by `JSON.stringify`, modelled as `none`). -/
structure ResponseRecord where
  requestId : String
  status : Nat
  response : String
  isBinary : Bool
  promptTokens : Option Nat
  completionTokens : Option Nat
  totalTokens : Option Nat
deriving Repr, DecidableEq

/-- Upstream response headers as delivered to the logger
(`proxyResp.headers`, a null-prototype object built by Node's HTTP parser,
so plain lookup with no inherited members is faithful here). -/
abbrev Headers : Type := StrMap String

/-- Model of `logResponse` (logger.ts:86-121).  Builds the response log entry: the
staged pending update for `requestId` is spread into the object literal and
the pending entry deleted, but the literal then lists `promptTokens`,
`completionTokens` and `totalTokens` explicitly *after* the spread, so the
parameter values (including `undefined`) overwrite whatever was staged.
Returns the written record together with the new pending table. -/
def logResponse (responseData : String) (headers : Option Headers)
    (requestId : String) (statusCode : Nat)
    (promptTokens completionTokens : Option Nat)
    (pending : StrMap LogUpdates) : ResponseRecord × StrMap LogUpdates :=
  let contentType := match headers with
    | some hs => (mget hs "content-type").getD ""
    | none => ""
  let isBinary := !(strContains contentType "application/json")
      && !(strContains contentType "text/")
  let pendingUpdate := (mget pending requestId).getD LogUpdates.empty
  let pending' := mdel pending requestId
  -- the object literal up to and including `...pendingUpdate`
  let base : ResponseRecord :=
    { requestId := requestId
      status := statusCode
      response := if isBinary then "<binary-data>" else responseData
      isBinary := isBinary
      promptTokens := pendingUpdate.promptTokens
      completionTokens := pendingUpdate.completionTokens
      totalTokens := pendingUpdate.totalTokens }
  -- the explicit keys listed after the spread
  let entry : ResponseRecord :=
    { base with
      promptTokens := promptTokens
      completionTokens := completionTokens
      totalTokens :=
        if jsTruthyNat promptTokens && jsTruthyNat completionTokens then
          some (promptTokens.getD 0 + completionTokens.getD 0)
        else none }
  (entry, pending')

/-! ## HTTP error replies (requestHandler.ts: handleErrorResponse)

`handleErrorResponse` serializes the object
`\x7berror: errorMessage, model, status\x7d` with `JSON.stringify` and sends it
with the given status code, or destroys the socket if headers were already
sent.  `jsonEscape` models the string escaping of `JSON.stringify` for the
characters that occur in this system's strings. -/

/-- Escaping of a single character inside a JSON string literal. -/
def jsonEscapeChar (c : Char) : List Char :=
  if c = '"' then ['\\', '"']
  else if c = '\\' then ['\\', '\\']
  else if c = '\n' then ['\\', 'n']
  else if c = '\r' then ['\\', 'r']
  else if c = '\t' then ['\\', 't']
  else [c]

/-- Body of a JSON string literal. -/
def jsonEscape (s : String) : String := String.mk (s.data.flatMap jsonEscapeChar)

/-- A JSON string literal, quotes included. -/
def jsonStringLit (s : String) : String := "\"" ++ jsonEscape s ++ "\""

/-- The serialized error body
`\x7b"error":...,"model":...,"status":...\x7d` built by `handleErrorResponse`. -/
def errorResponseBody (errorMessage model : String) (statusCode : Nat) : String :=
  "\x7b\"error\":" ++ jsonStringLit errorMessage
    ++ ",\"model\":" ++ jsonStringLit model
    ++ ",\"status\":" ++ toString statusCode ++ "\x7d"

/-- The reply sent to the client on an error path. -/
structure ClientReply where
  status : Nat
  contentType : String
  body : String
deriving Repr, DecidableEq

/-- What `handleErrorResponse` does to the client connection. -/
inductive ClientAction where
  | reply (r : ClientReply)
  | destroyed
deriving Repr, DecidableEq

/-- Model of `handleErrorResponse` (requestHandler.ts:562-582): before headers are
sent, writes the JSON error envelope with the given status code and content
type; after headers are sent, destroys the connection. -/
def handleErrorResponse (headersSent : Bool) (errorMessage model : String)
    (statusCode : Nat) (contentType : String) : ClientAction :=
  if headersSent then ClientAction.destroyed
  else ClientAction.reply
    { status := statusCode
      contentType := contentType
      body := errorResponseBody errorMessage model statusCode }

/-- Whether an upstream status takes the buffered-error branch
(`statusCode < 200 || statusCode >= 300`, requestHandler.ts:820). -/
def isErrorStatus (s : Nat) : Bool := decide (s < 200) || decide (300 ≤ s)

/-- The non-2xx branch of the upstream response handler
(requestHandler.ts:820-852): after the (possibly decompressed) error body
has been fully buffered as `respondData`, it is parsed (`parseOk` tells
whether `JSON.parse` succeeded), the response record is written through
`logResponse` with the upstream status, the current `promptTokens` counter
and completion tokens `0`, and the client is answered through
`handleErrorResponse` with the upstream status, the upstream content type
and `respondData` as the error message. -/
def upstreamErrorFlow (respondData : String) (upstreamHeaders : Option Headers)
    (requestId : String) (upstreamStatus : Nat) (promptTokens : Nat)
    (actualModelName : String) (upstreamContentType : String) (parseOk : Bool)
    (headersSent : Bool) (pending : StrMap LogUpdates) :
    ResponseRecord × StrMap LogUpdates × ClientAction :=
  let logged := logResponse (if parseOk then respondData else "<binary-data>")
      upstreamHeaders requestId upstreamStatus (some promptTokens) (some 0) pending
  (logged.1, logged.2,
    handleErrorResponse headersSent respondData actualModelName upstreamStatus
      upstreamContentType)

/-! ## Model registry (src/configLoader.ts: loadModelConfigs)

Temperatures are JSON numbers carried through unmodified by everything we
verify, so they are modelled by an opaque integer scale. -/

/-- Opaque model of the JSON temperature number (pass-through data). -/
abbrev Temperature : Type := Int

/-- One model entry under a provider (`modelName`, default `temperature`). -/
structure ModelEntry where
  modelName : String
  temperature : Temperature
deriving Repr, DecidableEq

/-- A resolved model configuration as stored in `modelConfigs`. -/
structure ModelConfig where
  baseUrl : String
  completionsPath : String
  modelName : String
  temperature : Temperature
deriving Repr, DecidableEq

/-- Custom header rules of a provider (`customHeader`). -/
structure HeaderRules where
  add : Option (StrMap String)
  replace : Option (StrMap String)
  remove : Option (List String)

/-- One provider's parsed configuration object.  `extraKeys` holds the
non-reserved keys of the provider object (the reserved keys being
`baseUrl`, `completionsPath`, `apiKey`, `customHeader`), which
`loadModelConfigs` treats as flattened model entries when the `models`
field is absent. -/
structure ProviderConfig where
  baseUrl : String
  completionsPath : String
  apiKey : Option String
  customHeader : Option HeaderRules
  models : Option (StrMap ModelEntry)
  extraKeys : StrMap ModelEntry

/-- The parsed global configuration: provider name to provider object. -/
abbrev GlobalConfig : Type := StrMap ProviderConfig

/-- The model table a provider contributes: its `models` field when present
(an object is truthy even when empty), otherwise its non-reserved keys. -/
def providerModels (p : ProviderConfig) : StrMap ModelEntry :=
  match p.models with
  | some m => m
  | none => p.extraKeys

/-- The inner loop of `loadModelConfigs` (configLoader.ts:55-63): registers
`provider/modelKey` for every model entry of one provider. -/
def addProviderModels (provider : String) (p : ProviderConfig)
    (acc : StrMap ModelConfig) : StrMap ModelConfig :=
  (providerModels p).foldl
    (fun acc2 kv =>
      mset acc2 (provider ++ "/" ++ kv.1)
        { baseUrl := p.baseUrl
          completionsPath := p.completionsPath
          modelName := kv.2.modelName
          temperature := kv.2.temperature })
    acc

/-- The registry built from a parsed configuration (the provider loop of
`loadModelConfigs`, configLoader.ts:31-64). -/
def buildModelConfigs (g : GlobalConfig) : StrMap ModelConfig :=
  g.foldl (fun acc pv => addProviderModels pv.1 pv.2 acc) []

/-- Model of `loadModelConfigs` (configLoader.ts:14-78) as a state transformer on
the active registry.  The input is the result of reading and
`JSON.parse`-ing the configuration file: `none` when either step failed.
On failure, the `catch` block reaches `process.exit(1)` (modelled by the
returned flag being `true`) and the registry is untouched, since parsing
precedes the in-place clear-and-repopulate.  On success, the registry is
cleared and repopulated from the parsed configuration alone, synchronously
(no suspension point), and the process keeps serving (`false`). -/
def loadModelConfigs (parsed : Option GlobalConfig)
    (registry : StrMap ModelConfig) : StrMap ModelConfig × Bool :=
  match parsed with
  | none => (registry, true)
  | some g => (buildModelConfigs g, false)

/-- Property names inherited by every plain JavaScript object literal from
`Object.prototype`.  A property read `obj[k]` on a plain object such as
`modelConfigs` or `options.headers` that misses every own key still finds
these, and each reads as a truthy value (a function, or the
`Object.prototype` object itself for `__proto__`). -/
def objectProtoMembers : List String :=
  ["constructor", "hasOwnProperty", "isPrototypeOf", "propertyIsEnumerable",
   "toLocaleString", "toString", "valueOf", "__proto__", "__defineGetter__",
   "__defineSetter__", "__lookupGetter__", "__lookupSetter__"]

/-- Outcome of the model-resolution step of `handleChatCompletions`. -/
inductive ResolveOutcome where
  /-- The identifier is an own key of the registry: the configured record. -/
  | ok (cfg : ModelConfig)
  /-- The identifier names an inherited `Object.prototype` member: the
  truthy inherited value passes the guard, `config` is that function, and
  the request dies later with a `TypeError` (at
  `url.parse(config.baseUrl + config.completionsPath)`) whose message does
  not mention `Unsupported or Unknown Model`. -/
  | protoLeak
  /-- The guard throws `Unsupported or Unknown Model: ...`. -/
  | unknownModel (message : String)
deriving Repr, DecidableEq

/-- The model-resolution step of `handleChatCompletions`
(requestHandler.ts:684-687): `!inModelName || !modelConfigs[inModelName]`
throws `Unsupported or Unknown Model`.  The `model` field of the request
body is `none` when absent; the empty string is falsy; `modelConfigs` is a
plain object literal, so a read that misses every own key still finds the
truthy inherited `Object.prototype` members and the guard does not throw
for those names. -/
def resolveModel (registry : StrMap ModelConfig) (inModelName : Option String) :
    ResolveOutcome :=
  match inModelName with
  | none => ResolveOutcome.unknownModel ("Unsupported or Unknown Model: " ++ "undefined")
  | some name =>
    if name = "" then
      ResolveOutcome.unknownModel ("Unsupported or Unknown Model: " ++ name)
    else
      match mget registry name with
      | some c => ResolveOutcome.ok c
      | none =>
        if name ∈ objectProtoMembers then ResolveOutcome.protoLeak
        else ResolveOutcome.unknownModel ("Unsupported or Unknown Model: " ++ name)

/-- The client reply produced when model resolution throws: the exception
message is surfaced by the outer `catch` through `handleErrorResponse` with
status 500 and the initial `actualModelName` value `"unknown"`
(requestHandler.ts:906-914). -/
def modelErrorReply (message : String) : ClientAction :=
  handleErrorResponse false message "unknown" 500 "application/json"

/-! ## Header transform engine (requestHandler.ts: customHeaders)

The add-phase values are run through the global regex replacement of
`/\x7b([^\x7d]+)\x7d/g`: at each opening brace followed by at least one
non-closing-brace character and then a closing brace, the bracketed name is
looked up on the provider object (`hasOwnProperty`), an absent property
substituting the empty string; everything else is copied unchanged and
replacement text is not rescanned. -/

/-- Splits `l` at its first closing brace: `some (before, after)` when one
exists, `none` otherwise. -/
def splitAtCloseBrace : List Char → Option (List Char × List Char)
  | [] => none
  | c :: t =>
    if c = '\x7d' then some ([], t)
    else
      match splitAtCloseBrace t with
      | some (a, b) => some (c :: a, b)
      | none => none

theorem splitAtCloseBrace_lt (l a b : List Char)
    (h : splitAtCloseBrace l = some (a, b)) : b.length < l.length := by
  induction l generalizing a b with
  | nil => simp [splitAtCloseBrace] at h
  | cons c t ih =>
    by_cases hc : c = '\x7d'
    · simp [splitAtCloseBrace, hc] at h
      rw [← h.2]
      simp
    · simp only [splitAtCloseBrace, if_neg hc] at h
      cases hs : splitAtCloseBrace t with
      | none => simp [hs] at h
      | some ab =>
        obtain ⟨a0, b0⟩ := ab
        simp [hs] at h
        have := ih a0 b0 hs
        rw [← h.2]
        simpa using Nat.lt_succ_of_lt this

/-- The regex replacement loop over the character list of an add-phase
header value. -/
def substAux (lookup : String → Option String) : List Char → List Char
  | [] => []
  | c :: rest =>
    if c = '\x7b' then
      match hs : splitAtCloseBrace rest with
      | some (prop, rest') =>
        if prop.isEmpty then c :: substAux lookup rest
        else ((lookup (String.mk prop)).getD "").data ++ substAux lookup rest'
      | none => c :: substAux lookup rest
    else c :: substAux lookup rest
termination_by l => l.length
decreasing_by
  · simp
  · exact Nat.lt_succ_of_lt (splitAtCloseBrace_lt _ _ _ hs)
  · simp
  · simp

/-- Placeholder substitution of an add-phase header value against the
provider object viewed as a property lookup. -/
def substituteHeaderPlaceholders (props : String → Option String) (s : String) :
    String :=
  String.mk (substAux props s.data)

/-- Truthiness of an optional string (JavaScript: `undefined` and `""` are
falsy). -/
def jsTruthyStr (o : Option String) : Bool :=
  match o with
  | none => false
  | some s => s != ""

/-- A value readable from the outbound `options.headers` object, which is a
plain object literal (`\x7b...clientReq.headers, ...\x7d`) and therefore
inherits `Object.prototype`: an own string-valued header, or an inherited
prototype member leaked into a header slot by a replace rule. -/
inductive HeaderVal where
  | str (s : String)
  | protoMember (name : String)
deriving Repr, DecidableEq

/-- The outbound request headers object. -/
abbrev OutHeaders : Type := StrMap HeaderVal

/-- The plain-object property read `options.headers[name]`: the own key
when present, else the inherited `Object.prototype` member, else
`undefined`. -/
def jsHeaderRead (headers : OutHeaders) (name : String) : Option HeaderVal :=
  match mget headers name with
  | some v => some v
  | none =>
    if name ∈ objectProtoMembers then some (HeaderVal.protoMember name)
    else none

/-- Truthiness of a header read: `undefined` and `""` are falsy; an
inherited prototype member is a function or object, hence truthy. -/
def jsTruthyHeaderVal (o : Option HeaderVal) : Bool :=
  match o with
  | none => false
  | some (HeaderVal.str s) => s != ""
  | some (HeaderVal.protoMember _) => true

/-- The add phase (requestHandler.ts:406-426): every add rule's value is
substituted and set, overwriting an existing header of the same name. -/
def applyAddRules (props : String → Option String) (addRules : StrMap String)
    (headers : OutHeaders) : OutHeaders :=
  addRules.foldl
    (fun h kv =>
      mset h kv.1 (HeaderVal.str (substituteHeaderPlaceholders props kv.2)))
    headers

/-- The replace phase (requestHandler.ts:429-437): when the read of the
client-side name is truthy — an own header with a non-empty value, or an
inherited `Object.prototype` member when no own key shadows it — its value
is copied to the upstream name and the client-side own key deleted
(`delete` of an inherited property removes no own key). -/
def applyReplaceRules (replaceRules : StrMap String) (headers : OutHeaders) :
    OutHeaders :=
  replaceRules.foldl
    (fun h kv =>
      if jsTruthyHeaderVal (jsHeaderRead h kv.1) then
        mdel (mset h kv.2 ((jsHeaderRead h kv.1).getD (HeaderVal.str ""))) kv.1
      else h)
    headers

/-- The remove phase (requestHandler.ts:440-447): each named header is
deleted when its read is truthy; for an inherited prototype name with no
own key the `delete` removes nothing. -/
def applyRemoveRules (removeRules : List String) (headers : OutHeaders) :
    OutHeaders :=
  removeRules.foldl
    (fun h n => if jsTruthyHeaderVal (jsHeaderRead h n) then mdel h n else h)
    headers

/-- Model of `customHeaders` (requestHandler.ts:397-448): applies the provider's
header rules to the outbound header set, add rules first, then replace
rules, then remove rules; absent rule groups are skipped. -/
def customHeaders (props : String → Option String)
    (customHeader : Option HeaderRules) (headers : OutHeaders) : OutHeaders :=
  match customHeader with
  | none => headers
  | some rules =>
    let h1 := match rules.add with
      | some a => applyAddRules props a headers
      | none => headers
    let h2 := match rules.replace with
      | some r => applyReplaceRules r h1
      | none => h1
    match rules.remove with
    | some rm => applyRemoveRules rm h2
    | none => h2

/-! ## TLS trust policy (src/configLoader.ts: loadCACerts, setupCA) -/

/-- One entry of the certificate cache `caCerts`.  `cert` holds the loaded
certificate bytes (opaque) or `none` when the file was absent/unreadable. -/
structure CertEntry where
  hostname : String
  must : Bool
  cert : Option String
deriving Repr, DecidableEq

/-- How `loadCACerts` stores one configured entry (configLoader.ts:114-124):
the stored `must` is the configured flag conjoined with the certificate
bytes being present (`certConfig.must && cert !== null`). -/
def loadCertEntry (hostname : String) (configuredMust : Bool)
    (readBytes : Option String) : CertEntry :=
  { hostname := hostname
    must := configuredMust && readBytes.isSome
    cert := readBytes }

/-- Model of `loadCACerts` (configLoader.ts:104-139) over the already-read
per-entry certificate bytes: builds the certificate cache in configuration
order. -/
def loadCACerts (configured : List (String × Bool × Option String)) :
    List CertEntry :=
  configured.map (fun e => loadCertEntry e.1 e.2.1 e.2.2)

/-- The TLS-relevant connection options mutated by `setupCA`. -/
structure ConnOptions where
  ca : Option String
  rejectUnauthorized : Bool
deriving Repr, DecidableEq

/-- Model of `setupCA` (configLoader.ts:142-154): looks up the first cache entry
whose hostname matches exactly; when it exists with `must` true and
certificate bytes present, pins that certificate and enables verification;
in every other case disables verification (leaving `ca` untouched). -/
def setupCA (caCerts : List CertEntry) (options : ConnOptions)
    (hostname : String) : ConnOptions :=
  match caCerts.find? (fun c => c.hostname = hostname) with
  | some c =>
    if c.must && c.cert.isSome then
      { options with ca := c.cert, rejectUnauthorized := true }
    else
      { options with rejectUnauthorized := false }
  | none => { options with rejectUnauthorized := false }

/-! ## Transient data cache (src/requestDataProcessor.ts) -/

/-- One chat message of the request body. -/
structure Message where
  role : String
  content : String
deriving Repr, DecidableEq

/-- The parsed request body fields the cache path reads. -/
structure ReqBody where
  messages : Option (List Message)
deriving Repr, DecidableEq

/-- Model of `extractTextFromMessages` (tokenizer.ts:108-113): keeps user, system
and assistant messages and joins their contents with newlines. -/
def extractTextFromMessages (messages : List Message) : String :=
  String.intercalate "\n"
    ((messages.filter
        (fun m => m.role = "user" || m.role = "system" || m.role = "assistant")).map
      (·.content))

/-- A cached request-data extraction. -/
structure ProcessedRequestData where
  requestId : String
  promptText : String
  model : String
  timestamp : Nat
deriving Repr, DecidableEq

/-- A cached response-data extraction. -/
structure ProcessedResponseData where
  requestId : String
  responseText : String
  model : String
  timestamp : Nat
deriving Repr, DecidableEq

/-- Constant `CACHE_CONFIG.maxSize` (requestDataProcessor.ts:24). -/
def CACHE_maxSize : Nat := 1000

/-- Constant `CACHE_CONFIG.ttl` in milliseconds (requestDataProcessor.ts:25). -/
def CACHE_ttl : Nat := 5 * 60 * 1000

/-- The capacity check of `processRequestData`
(requestDataProcessor.ts:67-72): when the cache has reached `maxSize`, the
first key from iteration order is deleted — but only if that key is truthy
(`if (firstKey)`), so an empty-string oldest key is never evicted. -/
def evictIfFull (cache : StrMap ProcessedRequestData) :
    StrMap ProcessedRequestData :=
  if CACHE_maxSize ≤ mlen cache then
    match cache with
    | [] => []
    | (k, v) :: t => if k = "" then (k, v) :: t else t
  else cache

/-- The miss path of `processRequestData` (requestDataProcessor.ts:66-89):
capacity check, prompt-text extraction, insertion with the current time. -/
def insertRequestData (now : Nat) (requestId : String) (body : ReqBody)
    (model : String) (cache : StrMap ProcessedRequestData) :
    ProcessedRequestData × StrMap ProcessedRequestData :=
  let cache2 := evictIfFull cache
  let promptText := match body.messages with
    | some ms => extractTextFromMessages ms
    | none => ""
  let d : ProcessedRequestData :=
    { requestId := requestId, promptText := promptText, model := model
      timestamp := now }
  (d, mset cache2 requestId d)

/-- Model of `processRequestData` (requestDataProcessor.ts:53-90): returns the
cached extraction when present and fresh, deletes it when stale, and
otherwise extracts, caches (evicting the oldest truthy key at capacity)
and returns the new entry. -/
def processRequestData (now : Nat) (requestId : String) (body : ReqBody)
    (model : String) (cache : StrMap ProcessedRequestData) :
    ProcessedRequestData × StrMap ProcessedRequestData :=
  match mget cache requestId with
  | some cached =>
    if now - cached.timestamp < CACHE_ttl then (cached, cache)
    else insertRequestData now requestId body model (mdel cache requestId)
  | none => insertRequestData now requestId body model cache

/-- The two transient caches. -/
structure TransientCaches where
  requestData : StrMap ProcessedRequestData
  responseData : StrMap ProcessedResponseData
deriving Repr, DecidableEq

/-- Model of `clearCachedData` (requestDataProcessor.ts:166-169): removes both
cache entries for a requestId.  Defined by the repository but invoked from
nowhere. -/
def clearCachedData (caches : TransientCaches) (requestId : String) :
    TransientCaches :=
  { requestData := mdel caches.requestData requestId
    responseData := mdel caches.responseData requestId }

/-- The stream-end side effects of the 2xx pipeline
(requestHandler.ts:451-534 `createMergedResponseStream.flush` together
with the `onCompletionTokens` callback of requestHandler.ts:862-869): the
response record is written through `logResponse` with no token parameters,
then the computed completion tokens are staged through `updateLogEntry`.
Neither path touches the transient caches: `clearCachedData` is not
called. -/
def mergedStreamFlush (requestId : String) (headers : Option Headers)
    (statusCode : Nat) (responseToLog : String)
    (promptTokens completionTokens : Nat)
    (pending : StrMap LogUpdates) (caches : TransientCaches) :
    ResponseRecord × StrMap LogUpdates × TransientCaches :=
  let logged := logResponse responseToLog headers requestId statusCode
      none none pending
  let pending2 := updateLogEntry logged.2 requestId
      ⟨none, some completionTokens, some (promptTokens + completionTokens)⟩
  (logged.1, pending2, caches)

/-- The transient-cache and logger effects of one successfully streamed
request (requestHandler.ts:670-905, success path): the prompt text is
extracted and cached under the fresh requestId, the prompt-token count is
staged through `updateLogEntry`, and at stream end `mergedStreamFlush`
runs.  Returns the written response record, the final pending table and
the final caches. -/
def successPathEffects (now : Nat) (requestId : String) (body : ReqBody)
    (model : String) (upstreamHeaders : Option Headers) (statusCode : Nat)
    (responseToLog : String) (promptTokens completionTokens : Nat)
    (pending : StrMap LogUpdates) (caches : TransientCaches) :
    ResponseRecord × StrMap LogUpdates × TransientCaches :=
  let processed := processRequestData now requestId body model
      caches.requestData
  let caches1 : TransientCaches := { caches with requestData := processed.2 }
  let pending1 := updateLogEntry pending requestId ⟨some promptTokens, none, none⟩
  mergedStreamFlush requestId upstreamHeaders statusCode responseToLog
    promptTokens completionTokens pending1 caches1

/-- Repeated insertion into the request-data cache: one
`processRequestData` call per requestId, in order. -/
def insertAllRequests (now : Nat) (body : ReqBody) (model : String)
    (ids : List String) (cache : StrMap ProcessedRequestData) :
    StrMap ProcessedRequestData :=
  ids.foldl (fun c id => (processRequestData now id body model c).2) cache

/-! ## Token accounting (src/tokenizer.ts) -/

/-- An encoder handle: the black-box per-model tokenizer, text to token
count (`encoder.encode(text).length`). -/
abbrev Encoder : Type := String → Nat

/-- The bounded recency-ordered encoder cache (tokenizer.ts:12-42), entries
in recency order, least-recently-used first. -/
structure LRUCache where
  entries : StrMap Encoder
  maxSize : Nat

/-- Model of `LRUCache.get`: on a hit the entry is deleted and re-inserted to move
it to the most-recent end. -/
def lruGet (c : LRUCache) (k : String) : Option Encoder × LRUCache :=
  match mget c.entries k with
  | some v => (some v, { c with entries := mdel c.entries k ++ [(k, v)] })
  | none => (none, c)

/-- Model of `LRUCache.set`: evicts the first (least recently used) entry when at
capacity (`if (firstKey !== undefined)`), then inserts. -/
def lruSet (c : LRUCache) (k : String) (v : Encoder) : LRUCache :=
  let entries1 :=
    if c.maxSize ≤ mlen c.entries then
      match c.entries with
      | [] => []
      | _ :: t => t
    else c.entries
  { c with entries := mset entries1 k v }

/-- Model of `getEncoder` (index.ts:52-59) with `encoding_for_model` abstracted as
`construct` (`none` models the constructor throwing for an unrecognized
model): cache hit, or construct and insert; a constructor failure
propagates as `none`. -/
def getEncoder (construct : String → Option Encoder) (model : String)
    (cache : LRUCache) : Option Encoder × LRUCache :=
  match lruGet cache model with
  | (some e, c1) => (some e, c1)
  | (none, c1) =>
    match construct model with
    | some e => (some e, lruSet c1 model e)
    | none => (none, c1)

/-- Model of `countTokens` (index.ts:67-77): encodes with the model's encoder; when
no encoder can be obtained (the `try` block throws), falls back to the
character length of the text. -/
def countTokens (construct : String → Option Encoder) (text model : String)
    (cache : LRUCache) : Nat × LRUCache :=
  match getEncoder construct model cache with
  | (some e, c1) => (e text, c1)
  | (none, c1) => (text.length, c1)

/-! ## Basic lemmas about the dictionary model -/

theorem isPrefixOf_append (l r : List Char) : l.isPrefixOf (l ++ r) = true := by
  induction l with
  | nil => simp [List.isPrefixOf]
  | cons a t ih => simp [List.isPrefixOf, ih]

theorem strContains_append_left (needle rest : String) :
    strContains (needle ++ rest) needle = true := by
  show listContains needle.data (needle ++ rest).data = true
  rw [String.data_append]
  cases h : needle.data ++ rest.data with
  | nil =>
    have : needle.data = [] := by
      rcases List.append_eq_nil.mp h with ⟨h1, _⟩
      exact h1
    simp [listContains, this, List.isEmpty]
  | cons c t =>
    rw [listContains, ← h, isPrefixOf_append]
    simp

theorem mget_mset {α : Type} (m : StrMap α) (k : String) (v : α) (k' : String) :
    mget (mset m k v) k' = if k = k' then some v else mget m k' := by
  induction m with
  | nil =>
    by_cases h : k = k' <;> simp [mset, mget, h]
  | cons hd t ih =>
    obtain ⟨k0, v0⟩ := hd
    by_cases h0 : k0 = k
    · subst h0
      by_cases h : k0 = k' <;> simp [mset, mget, h]
    · by_cases h : k0 = k'
      · subst h
        have : ¬ k = k0 := fun hh => h0 hh.symm
        simp [mset, mget, h0, this]
      · simp [mset, mget, h0, h, ih]

theorem mget_mdel_ne {α : Type} (m : StrMap α) (k k' : String) (h : k ≠ k') :
    mget (mdel m k) k' = mget m k' := by
  induction m with
  | nil => simp [mdel, mget]
  | cons hd t ih =>
    obtain ⟨k0, v0⟩ := hd
    by_cases h0 : k0 = k
    · subst h0
      have : k0 ≠ k' := fun hh => h (hh ▸ rfl)
      simp [mdel, mget, this]
    · simp [mdel, mget, h0, ih]

theorem mget_mdel_self_of_nodup {α : Type} (m : StrMap α) (k : String)
    (hnd : (mkeys m).Nodup) : mget (mdel m k) k = none := by
  induction m with
  | nil => simp [mdel, mget]
  | cons hd t ih =>
    obtain ⟨k0, v0⟩ := hd
    simp only [mkeys, List.map_cons, List.nodup_cons] at hnd
    by_cases h0 : k0 = k
    · subst h0
      simp only [mdel, if_pos rfl]
      -- k0 does not occur among the tail's keys, so lookup misses
      clear ih
      induction t with
      | nil => simp [mget]
      | cons hd2 t2 ih2 =>
        obtain ⟨k2, v2⟩ := hd2
        simp only [List.map_cons, List.mem_cons, not_or] at hnd
        have hk2 : k2 ≠ k0 := fun hh => hnd.1.1 hh.symm
        simp only [mget, if_neg hk2]
        exact ih2 ⟨hnd.1.2, (List.nodup_cons.mp hnd.2).2⟩
    · simp only [mdel, if_neg h0, mget, if_neg h0]
      exact ih hnd.2

theorem mkeys_mset_of_absent {α : Type} (m : StrMap α) (k : String) (v : α)
    (h : mget m k = none) : mkeys (mset m k v) = mkeys m ++ [k] := by
  induction m with
  | nil => simp [mset, mkeys]
  | cons hd t ih =>
    obtain ⟨k0, v0⟩ := hd
    by_cases h0 : k0 = k
    · simp [mget, h0] at h
    · simp only [mget, if_neg h0] at h
      have ih' := ih h
      simp only [mkeys, List.map_cons] at ih' ⊢
      simp [mset, if_neg h0, ih']

theorem mget_none_iff_not_mem_mkeys {α : Type} (m : StrMap α) (k : String) :
    mget m k = none ↔ k ∉ mkeys m := by
  induction m with
  | nil => simp [mget, mkeys]
  | cons hd t ih =>
    obtain ⟨k0, v0⟩ := hd
    by_cases h0 : k0 = k
    · subst h0
      simp [mget, mkeys]
    · simp only [mget, if_neg h0, mkeys, List.map_cons, List.mem_cons]
      rw [ih]
      simp only [mkeys]
      constructor
      · intro hnm hor
        rcases hor with hor | hor
        · exact h0 hor.symm
        · exact hnm hor
      · intro hn hm
        exact hn (Or.inr hm)

theorem mlen_eq_mkeys_length {α : Type} (m : StrMap α) :
    mlen m = (mkeys m).length := by
  simp [mlen, mkeys]


/-! ## Claim theorems -/

/-- C10: in every response record written by `logResponse`, `totalTokens`
is present — and equal to `promptTokens + completionTokens` — exactly when
both token parameters are present and non-zero; when either is absent or
zero (for example a zero prompt count next to a non-zero completion
count), `totalTokens` is omitted, whatever was staged in the pending
table. -/
theorem claim_C10_totalTokens (responseData : String) (headers : Option Headers)
    (requestId : String) (statusCode : Nat)
    (promptTokens completionTokens : Option Nat) (pending : StrMap LogUpdates) :
    ((logResponse responseData headers requestId statusCode promptTokens
          completionTokens pending).1.totalTokens.isSome = true
        ↔ jsTruthyNat promptTokens = true ∧ jsTruthyNat completionTokens = true)
    ∧ (∀ p c, promptTokens = some p → completionTokens = some c → p ≠ 0 → c ≠ 0 →
        (logResponse responseData headers requestId statusCode promptTokens
            completionTokens pending).1.totalTokens = some (p + c))
    ∧ (promptTokens = none ∨ promptTokens = some 0 ∨ completionTokens = none
          ∨ completionTokens = some 0 →
        (logResponse responseData headers requestId statusCode promptTokens
            completionTokens pending).1.totalTokens = none) := by
  refine ⟨?_, ?_, ?_⟩
  · show (if jsTruthyNat promptTokens && jsTruthyNat completionTokens then
        some (promptTokens.getD 0 + completionTokens.getD 0) else none).isSome = true
      ↔ _
    by_cases hp : jsTruthyNat promptTokens = true
    · by_cases hc : jsTruthyNat completionTokens = true
      · simp [hp, hc]
      · simp [hp, hc]
    · simp [hp]
  · intro p c hpeq hceq hp hc
    subst hpeq; subst hceq
    show (if jsTruthyNat (some p) && jsTruthyNat (some c) then
        some ((some p).getD 0 + (some c).getD 0) else none) = some (p + c)
    simp [jsTruthyNat, hp, hc]
  · intro h
    show (if jsTruthyNat promptTokens && jsTruthyNat completionTokens then
        some (promptTokens.getD 0 + completionTokens.getD 0) else none) = none
    rcases h with h | h | h | h <;> subst h <;> simp [jsTruthyNat]

/-- C10 witness: a record with both counts non-zero carries their sum. -/
theorem claim_C10_witness :
    (logResponse "ok" none "r" 200 (some 3) (some 4) []).1.totalTokens
      = some 7 :=
  (claim_C10_totalTokens "ok" none "r" 200 (some 3) (some 4) []).2.1 3 4 rfl rfl
    (by decide) (by decide)

/-- C9: `countTokens` never fails: when no encoder is cached for the model
and none can be constructed it returns the character length of the text,
and whenever an encoder is available (cached or freshly constructed) it
returns that encoder's token count. -/
theorem claim_C9_countTokens (construct : String → Option Encoder)
    (text model : String) (cache : LRUCache) :
    (mget cache.entries model = none →
      (construct model = none →
        (countTokens construct text model cache).1 = text.length)
      ∧ (∀ e, construct model = some e →
        (countTokens construct text model cache).1 = e text))
    ∧ (∀ e, mget cache.entries model = some e →
        (countTokens construct text model cache).1 = e text) := by
  constructor
  · intro hmiss
    constructor
    · intro hc
      simp [countTokens, getEncoder, lruGet, hmiss, hc]
    · intro e hc
      simp [countTokens, getEncoder, lruGet, hmiss, hc]
  · intro e hhit
    simp [countTokens, getEncoder, lruGet, hhit]

/-- C9 witness: an unconstructible model degrades to the character count. -/
theorem claim_C9_witness :
    (countTokens (fun _ => none) "abc" "mystery-model" ⟨[], 100⟩).1 = 3 :=
  ((claim_C9_countTokens (fun _ => none) "abc" "mystery-model" ⟨[], 100⟩).1
    rfl).1 rfl

/-- C3 counterexample: a reload whose input fails to parse does not leave
the process serving — `loadModelConfigs` reaches `process.exit(1)` (the
`true` flag), although the registry contents are untouched. -/
theorem claim_C3_counterexample :
    loadModelConfigs none [("p/m", ⟨"http://u", "/c", "n", (0 : Int)⟩)]
      = ([("p/m", ⟨"http://u", "/c", "n", (0 : Int)⟩)], true) := by
  rfl

/-- C3 amended: a failed load leaves the registry contents intact but
exits the process; a successful load replaces the registry with a table
computed from the new configuration alone — independent of the previous
registry, with no intermediate state observable — and keeps serving. -/
theorem claim_C3_reload (g : GlobalConfig) (registry registry' : StrMap ModelConfig) :
    loadModelConfigs none registry = (registry, true)
    ∧ (loadModelConfigs (some g) registry).1 = buildModelConfigs g
    ∧ (loadModelConfigs (some g) registry).2 = false
    ∧ (loadModelConfigs (some g) registry).1
        = (loadModelConfigs (some g) registry').1 :=
  ⟨rfl, rfl, rfl, rfl⟩

/-- C2: evaluation at the failing input.  A prompt-token update staged in
the pending table before `logResponse` runs does not appear in the written
response record — the explicit `promptTokens`/`completionTokens` keys
after the object spread overwrite the staged values with the (absent)
parameters — and an update arriving after the response line was written is
left staged in the pending table with no response line ever merging it. -/
theorem claim_C2_pending_update_lost :
    (logResponse "ok" (some [("content-type", "application/json")]) "r1" 200
        none none (updateLogEntry [] "r1" ⟨some 5, none, none⟩)).1.promptTokens
      = none
    ∧ mget (updateLogEntry [] "r1" ⟨some 5, none, none⟩) "r1"
        = some ⟨some 5, none, none⟩
    ∧ mget
        (updateLogEntry
          (logResponse "ok" (some [("content-type", "application/json")]) "r1" 200
              none none (updateLogEntry [] "r1" ⟨some 5, none, none⟩)).2
          "r1" ⟨none, some 7, none⟩) "r1"
      = some ⟨none, some 7, none⟩ := by
  refine ⟨rfl, rfl, rfl⟩

/-- C1 amended: for an upstream status outside the 2xx range, the fully
buffered (possibly decompressed) error body is logged as the response
record for the requestId with the upstream's status and zero completion
tokens, and the client — when its headers are unsent — receives the
upstream's own status code and content type, but with the upstream body
wrapped as the `error` field of the JSON envelope built by
`handleErrorResponse`, not relayed verbatim. -/
theorem claim_C1_upstream_error (respondData : String)
    (upstreamHeaders : Option Headers) (requestId : String)
    (upstreamStatus : Nat) (promptTokens : Nat) (actualModelName : String)
    (upstreamContentType : String) (parseOk : Bool)
    (pending : StrMap LogUpdates) (h : isErrorStatus upstreamStatus = true) :
    (upstreamErrorFlow respondData upstreamHeaders requestId upstreamStatus
        promptTokens actualModelName upstreamContentType parseOk false
        pending).1.requestId = requestId
    ∧ (upstreamErrorFlow respondData upstreamHeaders requestId upstreamStatus
        promptTokens actualModelName upstreamContentType parseOk false
        pending).1.status = upstreamStatus
    ∧ (upstreamErrorFlow respondData upstreamHeaders requestId upstreamStatus
        promptTokens actualModelName upstreamContentType parseOk false
        pending).1.completionTokens = some 0
    ∧ (upstreamErrorFlow respondData upstreamHeaders requestId upstreamStatus
        promptTokens actualModelName upstreamContentType parseOk false
        pending).1.promptTokens = some promptTokens
    ∧ (upstreamErrorFlow respondData upstreamHeaders requestId upstreamStatus
        promptTokens actualModelName upstreamContentType parseOk false
        pending).2.2
      = ClientAction.reply
          { status := upstreamStatus
            contentType := upstreamContentType
            body := errorResponseBody respondData actualModelName upstreamStatus } :=
  ⟨rfl, rfl, rfl, rfl, rfl⟩

/-- C1 witness: the scenario-C input, upstream
`503 \x7b"error":"overloaded"\x7d`. -/
theorem claim_C1_witness :
    isErrorStatus 503 = true
    ∧ (upstreamErrorFlow "\x7b\"error\":\"overloaded\"\x7d"
        (some [("content-type", "application/json")]) "r1" 503 0 "m"
        "application/json" true false []).1.status = 503
    ∧ (upstreamErrorFlow "\x7b\"error\":\"overloaded\"\x7d"
        (some [("content-type", "application/json")]) "r1" 503 0 "m"
        "application/json" true false []).1.completionTokens = some 0 :=
  ⟨by decide,
   (claim_C1_upstream_error "\x7b\"error\":\"overloaded\"\x7d"
      (some [("content-type", "application/json")]) "r1" 503 0 "m"
      "application/json" true [] (by decide)).2.1,
   (claim_C1_upstream_error "\x7b\"error\":\"overloaded\"\x7d"
      (some [("content-type", "application/json")]) "r1" 503 0 "m"
      "application/json" true [] (by decide)).2.2.1⟩

/-- C1 counterexample: the client does not receive the upstream error body
unchanged — for upstream `503 \x7b"error":"overloaded"\x7d` the reply body is
the JSON envelope, not the upstream body. -/
theorem claim_C1_counterexample :
    (upstreamErrorFlow "\x7b\"error\":\"overloaded\"\x7d"
        (some [("content-type", "application/json")]) "r1" 503 0 "m"
        "application/json" true false []).2.2
      ≠ ClientAction.reply
          { status := 503
            contentType := "application/json"
            body := "\x7b\"error\":\"overloaded\"\x7d" } := by
  decide

/-- C7 amended: once prompt and completion tokens are known, the transient
data cache entries are NOT explicitly removed: the stream-end path leaves
both caches exactly as the request path left them (the success path only
ever inserts into the request-data cache), and `clearCachedData` — which
would remove both entries — exists but is invoked from nowhere. -/
theorem claim_C7_no_explicit_clear (now : Nat) (requestId : String)
    (body : ReqBody) (model : String) (upstreamHeaders : Option Headers)
    (statusCode : Nat) (responseToLog : String)
    (promptTokens completionTokens : Nat) (pending : StrMap LogUpdates)
    (caches : TransientCaches)
    (hnd1 : (mkeys caches.requestData).Nodup)
    (hnd2 : (mkeys caches.responseData).Nodup) :
    (mergedStreamFlush requestId upstreamHeaders statusCode responseToLog
        promptTokens completionTokens pending caches).2.2 = caches
    ∧ (successPathEffects now requestId body model upstreamHeaders statusCode
        responseToLog promptTokens completionTokens pending
        caches).2.2.requestData
      = (processRequestData now requestId body model caches.requestData).2
    ∧ (successPathEffects now requestId body model upstreamHeaders statusCode
        responseToLog promptTokens completionTokens pending
        caches).2.2.responseData = caches.responseData
    ∧ mget (clearCachedData caches requestId).requestData requestId = none
    ∧ mget (clearCachedData caches requestId).responseData requestId = none :=
  ⟨rfl, rfl, rfl,
   mget_mdel_self_of_nodup caches.requestData requestId hnd1,
   mget_mdel_self_of_nodup caches.responseData requestId hnd2⟩

/-- C7 witness: a concrete successfully streamed request, with both token
counts computed, on empty initial caches. -/
theorem claim_C7_witness :
    (successPathEffects 0 "r1" ⟨some [⟨"user", "hi"⟩]⟩ "m"
        (some [("content-type", "application/json")]) 200 "resp" 2 3 []
        ⟨[], []⟩).2.2.responseData = ([] : StrMap ProcessedResponseData) :=
  (claim_C7_no_explicit_clear 0 "r1" ⟨some [⟨"user", "hi"⟩]⟩ "m"
      (some [("content-type", "application/json")]) 200 "resp" 2 3 []
      ⟨[], []⟩ (by decide) (by decide)).2.2.1

/-- C7 counterexample: after the full success path — prompt and completion
tokens both known — the request-data cache entry for the requestId is
still present, not removed. -/
theorem claim_C7_counterexample :
    mget (successPathEffects 0 "r1" ⟨some [⟨"user", "hi"⟩]⟩ "m"
        (some [("content-type", "application/json")]) 200 "resp" 2 3 []
        ⟨[], []⟩).2.2.requestData "r1"
      = some ⟨"r1", "hi", "m", 0⟩ := by
  decide

/-- C6 amended: at load time the stored `must` flag is forced to `false`
whenever the certificate bytes could not be read, whatever the configured
value; and `setupCA` enables verification — pinning the stored bytes —
exactly when the FIRST cache entry with the connection's exact hostname
has `must` true and bytes present, disabling verification in every other
case (no entry, `must` false, or no bytes). -/
theorem claim_C6_cert_policy (configured : List (String × Bool × Option String))
    (options : ConnOptions) (hostname : String) :
    (∀ e ∈ loadCACerts configured, e.cert = none → e.must = false)
    ∧ ((setupCA (loadCACerts configured) options hostname).rejectUnauthorized = true
        ↔ ∃ c, (loadCACerts configured).find? (fun c => c.hostname = hostname)
              = some c
            ∧ c.must = true ∧ c.cert.isSome = true)
    ∧ (∀ c, (loadCACerts configured).find? (fun c => c.hostname = hostname)
          = some c → c.must = true → c.cert.isSome = true →
        (setupCA (loadCACerts configured) options hostname).ca = c.cert)
    ∧ ((loadCACerts configured).find? (fun c => c.hostname = hostname) = none →
        (setupCA (loadCACerts configured) options hostname).rejectUnauthorized
          = false) := by
  refine ⟨?_, ?_, ?_, ?_⟩
  · intro e he hnone
    simp only [loadCACerts, List.mem_map] at he
    obtain ⟨x, _, hx⟩ := he
    rw [← hx] at hnone ⊢
    simp [loadCertEntry] at hnone ⊢
    simp [hnone]
  · constructor
    · intro htrue
      cases hf : (loadCACerts configured).find? (fun c => c.hostname = hostname) with
      | none => simp [setupCA, hf] at htrue
      | some c =>
        simp only [setupCA, hf] at htrue
        by_cases hmc : (c.must && c.cert.isSome) = true
        · rw [Bool.and_eq_true] at hmc
          exact ⟨c, rfl, hmc.1, hmc.2⟩
        · rw [if_neg hmc] at htrue
          simp at htrue
    · rintro ⟨c, hf, hm, hc⟩
      simp [setupCA, hf, hm, hc]
  · intro c hf hm hc
    simp [setupCA, hf, hm, hc]
  · intro hf
    simp [setupCA, hf]

/-- C6 witness: an unreadable required certificate degrades to `must`
false, with verification disabled for that hostname. -/
theorem claim_C6_witness :
    (loadCertEntry "h" true none).must = false
    ∧ (setupCA (loadCACerts [("h", true, none)]) ⟨none, true⟩ "h").rejectUnauthorized
        = false := by
  have h := (claim_C6_cert_policy [("h", true, none)] ⟨none, true⟩ "h").2.1
  refine ⟨rfl, ?_⟩
  cases hru : (setupCA (loadCACerts [("h", true, none)]) ⟨none, true⟩
      "h").rejectUnauthorized with
  | false => rfl
  | true =>
    obtain ⟨c, hf, _, hc⟩ := h.mp hru
    have hfind : (loadCACerts [("h", true, none)]).find?
        (fun c => c.hostname = "h") = some (loadCertEntry "h" true none) := by
      decide
    rw [hfind] at hf
    have hceq := Option.some.inj hf
    rw [← hceq] at hc
    exact absurd hc (by decide)

/-- C6 counterexample: with two entries for the same hostname, an entry
with `must` true and bytes present exists, yet `setupCA` — which checks
only the first match — disables verification, refuting the claim's
"exactly when an entry with that hostname exists". -/
theorem claim_C6_counterexample :
    ((⟨"h", true, some "CERT"⟩ : CertEntry)
        ∈ loadCACerts [("h", false, none), ("h", true, some "CERT")])
    ∧ (setupCA (loadCACerts [("h", false, none), ("h", true, some "CERT")])
        ⟨none, false⟩ "h").rejectUnauthorized = false := by
  decide

/-- Lookup after a fold of `mset` operations: the result either comes from
the initial map or the key is one of the inserted keys. -/
theorem mget_foldl_mset {β γ : Type} (f : β → String) (g : β → γ) (l : List β)
    (acc : StrMap γ) (name : String) (cfg : γ)
    (h : mget (l.foldl (fun m b => mset m (f b) (g b)) acc) name = some cfg) :
    mget acc name = some cfg ∨ ∃ b ∈ l, name = f b := by
  induction l generalizing acc with
  | nil => exact Or.inl h
  | cons x t ih =>
    rcases ih (mset acc (f x) (g x)) h with h1 | h1
    · rw [mget_mset] at h1
      by_cases hx : f x = name
      · exact Or.inr ⟨x, List.mem_cons_self x t, hx.symm⟩
      · rw [if_neg hx] at h1
        exact Or.inl h1
    · obtain ⟨b, hb, hbe⟩ := h1
      exact Or.inr ⟨b, List.mem_cons_of_mem x hb, hbe⟩

/-- A fold of `mset` operations over keys different from `name` does not
change lookup at `name`. -/
theorem mget_foldl_mset_not_mem {β γ : Type} (f : β → String) (g : β → γ)
    (l : List β) (acc : StrMap γ) (name : String)
    (h : ∀ b ∈ l, f b ≠ name) :
    mget (l.foldl (fun m b => mset m (f b) (g b)) acc) name = mget acc name := by
  induction l generalizing acc with
  | nil => rfl
  | cons x t ih =>
    have hstep := ih (mset acc (f x) (g x)) (fun b hb => h b (List.mem_cons_of_mem x hb))
    rw [List.foldl_cons, hstep, mget_mset,
      if_neg (h x (List.mem_cons_self x t))]

/-- With pairwise-distinct inserted keys, a fold of `mset` operations maps
each inserted key to its own value. -/
theorem mget_foldl_mset_of_mem {β γ : Type} (f : β → String) (g : β → γ)
    (l : List β) (acc : StrMap γ) (b : β) (hb : b ∈ l)
    (hnd : (l.map f).Nodup) :
    mget (l.foldl (fun m b => mset m (f b) (g b)) acc) (f b) = some (g b) := by
  induction l generalizing acc with
  | nil => cases hb
  | cons x t ih =>
    simp only [List.map_cons, List.nodup_cons] at hnd
    rcases List.mem_cons.mp hb with hbx | hbt
    · subst hbx
      rw [List.foldl_cons,
        mget_foldl_mset_not_mem f g t (mset acc (f b) (g b)) (f b)
          (fun c hc hce => hnd.1 (hce ▸ List.mem_map_of_mem f hc)),
        mget_mset, if_pos rfl]
    · exact ih (mset acc (f x) (g x)) hbt hnd.2

/-- Every key of the built registry has the shape `provider ++ "/" ++ k`. -/
theorem buildModelConfigs_key_shape (g : GlobalConfig) (name : String)
    (cfg : ModelConfig) (h : mget (buildModelConfigs g) name = some cfg) :
    ∃ pv k, name = pv ++ "/" ++ k := by
  suffices haux : ∀ (l : List (String × ProviderConfig))
      (init : StrMap ModelConfig),
      mget (l.foldl (fun acc pv => addProviderModels pv.1 pv.2 acc) init) name
        = some cfg →
      mget init name = some cfg ∨ ∃ pv k, name = pv ++ "/" ++ k by
    rcases haux g [] h with h1 | h1
    · simp [mget] at h1
    · exact h1
  intro l
  induction l with
  | nil => exact fun init h0 => Or.inl h0
  | cons x t ih =>
    intro init h0
    rcases ih (addProviderModels x.1 x.2 init) h0 with h1 | h1
    · unfold addProviderModels at h1
      rcases mget_foldl_mset _ _ _ _ _ _ h1 with h2 | h2
      · exact Or.inl h2
      · obtain ⟨kv, _, hkv⟩ := h2
        exact Or.inr ⟨x.1, kv.1, hkv⟩
    · exact Or.inr h1

/-- Keys of the built registry are never the empty string. -/
theorem buildModelConfigs_key_ne_empty (g : GlobalConfig) (name : String)
    (cfg : ModelConfig) (h : mget (buildModelConfigs g) name = some cfg) :
    name ≠ "" := by
  obtain ⟨pv, k, hname⟩ := buildModelConfigs_key_shape g name cfg h
  intro h0
  rw [h0] at hname
  have hlen := congrArg String.length hname
  rw [String.length_append, String.length_append] at hlen
  have h1 : ("" : String).length = 0 := rfl
  have h2 : ("/" : String).length = 1 := rfl
  rw [h1, h2] at hlen
  omega

/-- C4 amended: resolution returns exactly the configured ModelSpec
precisely for the keys of the built registry — for a provider's model entry
the stored record carries that entry's `modelName` and `temperature` — and
every other identifier (absent, empty, or unknown) that does not name an
inherited `Object.prototype` member fails with the
`Unsupported or Unknown Model` error, surfaced to the client as status 500
with the error message containing that phrase; an unknown identifier that
IS a prototype member name (`toString`, `constructor`, ...) reads a truthy
inherited value, bypasses the guard, and leaks it as `config` (failing
later without the phrase) — but never resolves to another model. -/
theorem claim_C4_resolution (g : GlobalConfig) (name : String) :
    (∀ cfg, resolveModel (buildModelConfigs g) (some name) = ResolveOutcome.ok cfg
        ↔ mget (buildModelConfigs g) name = some cfg)
    ∧ (mget (buildModelConfigs g) name = none → name ∉ objectProtoMembers →
      resolveModel (buildModelConfigs g) (some name)
          = ResolveOutcome.unknownModel ("Unsupported or Unknown Model: " ++ name)
        ∧ strContains ("Unsupported or Unknown Model: " ++ name)
            "Unsupported or Unknown Model" = true
        ∧ modelErrorReply ("Unsupported or Unknown Model: " ++ name)
          = ClientAction.reply
              { status := 500
                contentType := "application/json"
                body := errorResponseBody
                  ("Unsupported or Unknown Model: " ++ name) "unknown" 500 })
    ∧ (mget (buildModelConfigs g) name = none → name ∈ objectProtoMembers →
      resolveModel (buildModelConfigs g) (some name) = ResolveOutcome.protoLeak)
    ∧ resolveModel (buildModelConfigs g) none
        = ResolveOutcome.unknownModel ("Unsupported or Unknown Model: " ++ "undefined")
    ∧ (∀ provider p k e, g = [(provider, p)] →
        (k, e) ∈ providerModels p →
        ((providerModels p).map (fun kv => provider ++ "/" ++ kv.1)).Nodup →
        mget (buildModelConfigs g) (provider ++ "/" ++ k)
          = some { baseUrl := p.baseUrl
                   completionsPath := p.completionsPath
                   modelName := e.modelName
                   temperature := e.temperature }) := by
  refine ⟨?_, ?_, ?_, rfl, ?_⟩
  · intro cfg
    constructor
    · intro hok
      by_cases hne : name = ""
      · rw [hne] at hok
        simp [resolveModel] at hok
      · simp only [resolveModel, if_neg hne] at hok
        cases hget : mget (buildModelConfigs g) name with
        | some c =>
          rw [hget] at hok
          simp only [ResolveOutcome.ok.injEq] at hok
          rw [hok]
        | none =>
          rw [hget] at hok
          by_cases hm : name ∈ objectProtoMembers
          · simp [hm] at hok
          · simp [hm] at hok
    · intro hget
      have hne := buildModelConfigs_key_ne_empty g name cfg hget
      simp only [resolveModel]
      rw [if_neg hne, hget]
  · intro hnone hnm
    refine ⟨?_, ?_, rfl⟩
    · simp only [resolveModel]
      by_cases hne : name = ""
      · rw [if_pos hne]
      · rw [if_neg hne, hnone, if_neg hnm]
    · have heq : ("Unsupported or Unknown Model: " ++ name)
          = "Unsupported or Unknown Model" ++ (": " ++ name) := by
        rw [← String.append_assoc]
        rfl
      rw [heq]
      exact strContains_append_left "Unsupported or Unknown Model" (": " ++ name)
  · intro hnone hm
    have hne : name ≠ "" := by
      intro h0
      rw [h0] at hm
      revert hm
      decide
    simp only [resolveModel]
    rw [if_neg hne, hnone, if_pos hm]
  · intro provider p k e hg hmem hnd
    subst hg
    show mget (addProviderModels provider p []) (provider ++ "/" ++ k) = _
    unfold addProviderModels
    exact mget_foldl_mset_of_mem
      (fun kv => provider ++ "/" ++ kv.1)
      (fun kv =>
        ({ baseUrl := p.baseUrl, completionsPath := p.completionsPath
           modelName := kv.2.modelName
           temperature := kv.2.temperature } : ModelConfig))
      (providerModels p) [] (k, e) hmem hnd

/-- C4 witness: the scenario-A registry resolves `ollama/gpt-oss` to its
configured spec, and the scenario-B identifier `nope/nope` fails with the
`Unsupported or Unknown Model` error surfaced as a 500 reply. -/
theorem claim_C4_witness :
    mget (buildModelConfigs
        [("ollama", ⟨"http://localhost:11434", "/v1/chat/completions", none,
          none, some [("gpt-oss", ⟨"gpt-oss:20b", 1⟩)], []⟩)])
      "ollama/gpt-oss"
      = some ⟨"http://localhost:11434", "/v1/chat/completions", "gpt-oss:20b", 1⟩
    ∧ resolveModel (buildModelConfigs
        [("ollama", ⟨"http://localhost:11434", "/v1/chat/completions", none,
          none, some [("gpt-oss", ⟨"gpt-oss:20b", 1⟩)], []⟩)])
      (some "ollama/gpt-oss")
      = ResolveOutcome.ok
          ⟨"http://localhost:11434", "/v1/chat/completions", "gpt-oss:20b", 1⟩
    ∧ resolveModel (buildModelConfigs
        [("ollama", ⟨"http://localhost:11434", "/v1/chat/completions", none,
          none, some [("gpt-oss", ⟨"gpt-oss:20b", 1⟩)], []⟩)])
      (some "nope/nope")
      = ResolveOutcome.unknownModel ("Unsupported or Unknown Model: " ++ "nope/nope")
    ∧ strContains ("Unsupported or Unknown Model: " ++ "nope/nope")
        "Unsupported or Unknown Model" = true := by
  refine ⟨?_, ?_, ?_, ?_⟩
  · exact (claim_C4_resolution
      [("ollama", ⟨"http://localhost:11434", "/v1/chat/completions", none,
        none, some [("gpt-oss", ⟨"gpt-oss:20b", 1⟩)], []⟩)]
      "ollama/gpt-oss").2.2.2.2 "ollama"
      ⟨"http://localhost:11434", "/v1/chat/completions", none, none,
        some [("gpt-oss", ⟨"gpt-oss:20b", 1⟩)], []⟩
      "gpt-oss" ⟨"gpt-oss:20b", 1⟩ rfl (by decide) (by decide)
  · exact ((claim_C4_resolution
      [("ollama", ⟨"http://localhost:11434", "/v1/chat/completions", none,
        none, some [("gpt-oss", ⟨"gpt-oss:20b", 1⟩)], []⟩)]
      "ollama/gpt-oss").1 _).mpr (by decide)
  · exact ((claim_C4_resolution
      [("ollama", ⟨"http://localhost:11434", "/v1/chat/completions", none,
        none, some [("gpt-oss", ⟨"gpt-oss:20b", 1⟩)], []⟩)]
      "nope/nope").2.1 (by decide) (by decide)).1
  · exact ((claim_C4_resolution
      [("ollama", ⟨"http://localhost:11434", "/v1/chat/completions", none,
        none, some [("gpt-oss", ⟨"gpt-oss:20b", 1⟩)], []⟩)]
      "nope/nope").2.1 (by decide) (by decide)).2.1

/-- C4 counterexample: the unknown, slash-free identifier `toString` does
NOT fail with the `Unsupported or Unknown Model` error — the read of
`modelConfigs["toString"]` finds the truthy inherited
`Object.prototype.toString`, the guard is bypassed, and the inherited
function leaks as `config`. -/
theorem claim_C4_counterexample :
    resolveModel (buildModelConfigs
        [("ollama", ⟨"http://localhost:11434", "/v1/chat/completions", none,
          none, some [("gpt-oss", ⟨"gpt-oss:20b", 1⟩)], []⟩)])
      (some "toString")
      = ResolveOutcome.protoLeak
    ∧ resolveModel (buildModelConfigs
        [("ollama", ⟨"http://localhost:11434", "/v1/chat/completions", none,
          none, some [("gpt-oss", ⟨"gpt-oss:20b", 1⟩)], []⟩)])
      (some "toString")
      ≠ ResolveOutcome.unknownModel
          ("Unsupported or Unknown Model: " ++ "toString") := by
  decide

theorem splitAtCloseBrace_append (name rest : List Char)
    (h : '\x7d' ∉ name) :
    splitAtCloseBrace (name ++ '\x7d' :: rest) = some (name, rest) := by
  induction name with
  | nil => simp [splitAtCloseBrace]
  | cons c t ih =>
    simp only [List.mem_cons, not_or] at h
    have hc : c ≠ '\x7d' := fun hh => h.1 hh.symm
    simp only [List.cons_append, splitAtCloseBrace, if_neg hc, List.append_eq,
      ih h.2]

theorem substAux_nil (lookup : String → Option String) :
    substAux lookup [] = [] := by
  simp [substAux]

theorem substAux_cons_no_open (lookup : String → Option String) (c : Char)
    (h : c ≠ '\x7b') (rest : List Char) :
    substAux lookup (c :: rest) = c :: substAux lookup rest := by
  rw [substAux]
  simp [h]

theorem substAux_placeholder (lookup : String → Option String)
    (name rest : List Char) (hne : name ≠ []) (hnb : '\x7d' ∉ name) :
    substAux lookup ('\x7b' :: (name ++ '\x7d' :: rest))
      = ((lookup (String.mk name)).getD "").data ++ substAux lookup rest := by
  rw [substAux]
  rw [if_pos rfl]
  rw [splitAtCloseBrace_append name rest hnb]
  have hemp : name.isEmpty = false := by
    cases name with
    | nil => exact absurd rfl hne
    | cons a t => rfl
  simp [hemp]

theorem substAux_copy_plain (lookup : String → Option String)
    (l tail : List Char) (h : ∀ c ∈ l, c ≠ '\x7b') :
    substAux lookup (l ++ tail) = l ++ substAux lookup tail := by
  induction l with
  | nil => rfl
  | cons c t ih =>
    simp only [List.mem_cons, forall_eq_or_imp] at h
    rw [List.cons_append, substAux_cons_no_open lookup c h.1,
      ih h.2, List.cons_append]

theorem String.mk_data (s : String) : String.mk s.data = s := rfl

theorem mkeys_mset_of_present {α : Type} (m : StrMap α) (k : String) (v w : α)
    (h : mget m k = some w) : mkeys (mset m k v) = mkeys m := by
  induction m with
  | nil => simp [mget] at h
  | cons hd t ih =>
    obtain ⟨k0, v0⟩ := hd
    by_cases h0 : k0 = k
    · subst h0
      simp [mset, mkeys]
    · simp only [mget, if_neg h0] at h
      simp only [mset, if_neg h0, mkeys, List.map_cons]
      rw [show List.map (fun x => x.1) (mset t k v) = mkeys (mset t k v) from rfl,
        ih h]
      rfl

theorem mkeys_mset_nodup {α : Type} (m : StrMap α) (k : String) (v : α)
    (h : (mkeys m).Nodup) : (mkeys (mset m k v)).Nodup := by
  cases hm : mget m k with
  | some w => rw [mkeys_mset_of_present m k v w hm]; exact h
  | none =>
    rw [mkeys_mset_of_absent m k v hm]
    rw [List.nodup_append]
    refine ⟨h, List.nodup_singleton k, ?_⟩
    intro a ha hb
    rw [List.mem_singleton] at hb
    subst hb
    exact (mget_none_iff_not_mem_mkeys m a).mp hm ha

/-- C5 amended: the header transform applies add rules, then replace
rules, then remove rules; an add-phase `\x7bpropertyName\x7d` placeholder
substitutes the provider property's value, an unresolved placeholder
substituting the empty string (never left literal, never an error); a
replace rule whose source is not an `Object.prototype` member name copies
the source header's value to the upstream name and deletes the source
exactly when the source header is present (with a truthy value), doing
nothing when it is absent — but a replace rule whose source IS a prototype
member name (`constructor`, `toString`, ...) also fires when no such
header is present, copying the truthy inherited member into the upstream
header name. -/
theorem claim_C5_header_transform (props : String → Option String) :
    (∀ a r rm headers,
      customHeaders props (some ⟨some a, some r, some rm⟩) headers
        = applyRemoveRules rm (applyReplaceRules r (applyAddRules props a headers)))
    ∧ (∀ name : String, name.data ≠ [] → '\x7d' ∉ name.data →
      (props name = none →
        substituteHeaderPlaceholders props ("\x7b" ++ name ++ "\x7d") = "")
      ∧ (∀ v, props name = some v →
        substituteHeaderPlaceholders props ("\x7b" ++ name ++ "\x7d") = v)
      ∧ (∀ pre v, (∀ c ∈ pre.data, c ≠ '\x7b') → props name = some v →
        substituteHeaderPlaceholders props (pre ++ ("\x7b" ++ name ++ "\x7d"))
          = pre ++ v))
    ∧ (∀ hn tmpl headers,
      mget (applyAddRules props [(hn, tmpl)] headers) hn
        = some (HeaderVal.str (substituteHeaderPlaceholders props tmpl)))
    ∧ (∀ src dst v headers, (mkeys headers).Nodup → src ≠ dst →
      mget headers src = some (HeaderVal.str v) → v ≠ "" →
      mget (applyReplaceRules [(src, dst)] headers) dst
          = some (HeaderVal.str v)
      ∧ mget (applyReplaceRules [(src, dst)] headers) src = none)
    ∧ (∀ src dst headers, mget headers src = none →
      src ∉ objectProtoMembers →
      applyReplaceRules [(src, dst)] headers = headers)
    ∧ (∀ src dst (headers : OutHeaders), mget headers src = none →
      src ∈ objectProtoMembers → src ≠ dst →
      mget (applyReplaceRules [(src, dst)] headers) dst
        = some (HeaderVal.protoMember src)) := by
  have hdata : ∀ name : String, ("\x7b" ++ name ++ "\x7d").data
      = '\x7b' :: (name.data ++ '\x7d' :: []) := by
    intro name
    rw [String.data_append, String.data_append]
    simp
  refine ⟨fun a r rm headers => rfl, ?_, ?_, ?_, ?_, ?_⟩
  · intro name hne hnb
    have hsub : ∀ res, props name = res →
        substituteHeaderPlaceholders props ("\x7b" ++ name ++ "\x7d")
          = String.mk (res.getD "").data := by
      intro res hres
      show String.mk (substAux props ("\x7b" ++ name ++ "\x7d").data) = _
      rw [hdata name, substAux_placeholder props name.data [] hne hnb,
        substAux_nil, List.append_nil, String.mk_data, hres]
    refine ⟨?_, ?_, ?_⟩
    · intro hnone
      rw [hsub none hnone]
      rfl
    · intro v hv
      rw [hsub (some v) hv]
      exact String.mk_data v
    · intro pre v hpre hv
      show String.mk (substAux props (pre ++ ("\x7b" ++ name ++ "\x7d")).data) = _
      rw [String.data_append, substAux_copy_plain props pre.data _ hpre,
        hdata name, substAux_placeholder props name.data [] hne hnb,
        substAux_nil, List.append_nil, String.mk_data, hv]
      show String.mk (pre.data ++ v.data) = pre ++ v
      rw [← String.data_append, String.mk_data]
  · intro hn tmpl headers
    show mget (mset headers hn
        (HeaderVal.str (substituteHeaderPlaceholders props tmpl))) hn = _
    rw [mget_mset, if_pos rfl]
  · intro src dst v headers hnd hne hsome hv
    have hread : jsHeaderRead headers src = some (HeaderVal.str v) := by
      simp [jsHeaderRead, hsome]
    have htruthy : jsTruthyHeaderVal (jsHeaderRead headers src) = true := by
      rw [hread]
      simp [jsTruthyHeaderVal, hv]
    have hrepl : applyReplaceRules [(src, dst)] headers
        = mdel (mset headers dst
            ((jsHeaderRead headers src).getD (HeaderVal.str ""))) src := by
      show (if jsTruthyHeaderVal (jsHeaderRead headers src) then
          mdel (mset headers dst
            ((jsHeaderRead headers src).getD (HeaderVal.str ""))) src
        else headers) = _
      rw [if_pos htruthy]
    rw [hrepl, hread]
    constructor
    · rw [mget_mdel_ne _ _ _ hne, mget_mset, if_pos rfl]
      rfl
    · exact mget_mdel_self_of_nodup _ src
        (mkeys_mset_nodup headers dst _ hnd)
  · intro src dst headers hnone hnm
    have hread : jsHeaderRead headers src = none := by
      simp [jsHeaderRead, hnone, hnm]
    show (if jsTruthyHeaderVal (jsHeaderRead headers src) then
        mdel (mset headers dst
          ((jsHeaderRead headers src).getD (HeaderVal.str ""))) src
      else headers) = headers
    rw [hread]
    rfl
  · intro src dst headers hnone hm hne
    have hread : jsHeaderRead headers src
        = some (HeaderVal.protoMember src) := by
      simp [jsHeaderRead, hnone, hm]
    have hrepl : applyReplaceRules [(src, dst)] headers
        = mdel (mset headers dst
            ((jsHeaderRead headers src).getD (HeaderVal.str ""))) src := by
      show (if jsTruthyHeaderVal (jsHeaderRead headers src) then
          mdel (mset headers dst
            ((jsHeaderRead headers src).getD (HeaderVal.str ""))) src
        else headers) = _
      rw [hread]
      rfl
    rw [hrepl, hread, mget_mdel_ne _ _ _ hne, mget_mset, if_pos rfl]
    rfl

/-- C5 witness: `Bearer \x7bapiKey\x7d` with `apiKey = "sk-123"` yields
`Bearer sk-123`, an unknown property substitutes the empty string, and the
replace rule `Authorization -> x-gateway-apikey` moves the inbound value. -/
theorem claim_C5_witness :
    substituteHeaderPlaceholders
        (fun n => if n = "apiKey" then some "sk-123" else none)
        ("Bearer " ++ ("\x7b" ++ "apiKey" ++ "\x7d")) = "Bearer " ++ "sk-123"
    ∧ substituteHeaderPlaceholders
        (fun n => if n = "apiKey" then some "sk-123" else none)
        ("\x7b" ++ "missing" ++ "\x7d") = ""
    ∧ mget (applyReplaceRules [("Authorization", "x-gateway-apikey")]
        [("Authorization", HeaderVal.str "Bearer xyz")]) "x-gateway-apikey"
        = some (HeaderVal.str "Bearer xyz")
    ∧ mget (applyReplaceRules [("Authorization", "x-gateway-apikey")]
        [("Authorization", HeaderVal.str "Bearer xyz")]) "Authorization"
        = none := by
  have h := claim_C5_header_transform
      (fun n => if n = "apiKey" then some "sk-123" else none)
  have hrepl := h.2.2.2.1 "Authorization" "x-gateway-apikey" "Bearer xyz"
      [("Authorization", HeaderVal.str "Bearer xyz")] (by decide) (by decide)
      (by decide) (by decide)
  exact ⟨((h.2.1 "apiKey" (by decide) (by decide)).2.2 "Bearer " "sk-123"
      (by decide) (by decide)),
    ((h.2.1 "missing" (by decide) (by decide)).1 (by decide)),
    hrepl.1, hrepl.2⟩

/-- C5 counterexample: a replace rule with source `constructor` fires with
no such inbound header — the plain-object read finds the truthy inherited
`Object.prototype.constructor` and the rule copies it into the upstream
header name — refuting "copies ... only when the source header is
present". -/
theorem claim_C5_counterexample :
    applyReplaceRules [("constructor", "x-gateway-apikey")]
        ([] : OutHeaders) ≠ ([] : OutHeaders)
    ∧ mget (applyReplaceRules [("constructor", "x-gateway-apikey")]
        ([] : OutHeaders)) "x-gateway-apikey"
      = some (HeaderVal.protoMember "constructor") := by
  decide

theorem mlen_mset_of_absent {α : Type} (m : StrMap α) (k : String) (v : α)
    (h : mget m k = none) : mlen (mset m k v) = mlen m + 1 := by
  rw [mlen_eq_mkeys_length, mlen_eq_mkeys_length, mkeys_mset_of_absent m k v h,
    List.length_append]
  rfl

theorem mlen_mset_le {α : Type} (m : StrMap α) (k : String) (v : α) :
    mlen (mset m k v) ≤ mlen m + 1 := by
  induction m with
  | nil => simp [mset, mlen]
  | cons hd t ih =>
    obtain ⟨k0, v0⟩ := hd
    by_cases h0 : k0 = k
    · simp [mset, h0, mlen]
    · simp only [mset, if_neg h0, mlen, List.length_cons]
      exact Nat.succ_le_succ ih

theorem mlen_mdel_le {α : Type} (m : StrMap α) (k : String) :
    mlen (mdel m k) ≤ mlen m := by
  induction m with
  | nil => simp [mdel, mlen]
  | cons hd t ih =>
    obtain ⟨k0, v0⟩ := hd
    by_cases h0 : k0 = k
    · simp [mdel, h0, mlen]
    · simp only [mdel, if_neg h0, mlen, List.length_cons]
      exact Nat.succ_le_succ ih

theorem mkeys_mdel_subset {α : Type} (m : StrMap α) (k x : String)
    (h : x ∈ mkeys (mdel m k)) : x ∈ mkeys m := by
  induction m with
  | nil => simp [mdel, mkeys] at h
  | cons hd t ih =>
    obtain ⟨k0, v0⟩ := hd
    by_cases h0 : k0 = k
    · simp only [mdel, if_pos h0] at h
      exact List.mem_cons_of_mem k0 h
    · simp only [mdel, if_neg h0, mkeys, List.map_cons, List.mem_cons] at h ⊢
      rcases h with h | h
      · exact Or.inl h
      · exact Or.inr (ih h)

theorem insertRequestData_mlen_le (now : Nat) (requestId : String)
    (body : ReqBody) (model : String) (cache : StrMap ProcessedRequestData)
    (hlen : mlen cache ≤ CACHE_maxSize)
    (hkeys : ∀ k ∈ mkeys cache, k ≠ "") :
    mlen (insertRequestData now requestId body model cache).2 ≤ CACHE_maxSize := by
  show mlen (mset (evictIfFull cache) requestId _) ≤ CACHE_maxSize
  by_cases hfull : CACHE_maxSize ≤ mlen cache
  · have hpos : 0 < mlen cache := lt_of_lt_of_le (by decide) hfull
    cases cache with
    | nil => simp [mlen] at hpos
    | cons hd t =>
      obtain ⟨k0, v0⟩ := hd
      have hk0 : k0 ≠ "" := hkeys k0 (List.mem_cons_self _ _)
      have hev : evictIfFull ((k0, v0) :: t) = t := by
        simp [evictIfFull, hfull, hk0]
      rw [hev]
      have := mlen_mset_le t requestId
        (⟨requestId, match body.messages with
          | some ms => extractTextFromMessages ms
          | none => "", model, now⟩ : ProcessedRequestData)
      have hlt : mlen t + 1 ≤ CACHE_maxSize := by
        have : mlen ((k0, v0) :: t) = mlen t + 1 := rfl
        omega
      calc mlen (mset t requestId _) ≤ mlen t + 1 := mlen_mset_le t _ _
        _ ≤ CACHE_maxSize := hlt
  · have hev : evictIfFull cache = cache := by
      simp [evictIfFull, hfull]
    rw [hev]
    have hlt : mlen cache < CACHE_maxSize := Nat.lt_of_not_le hfull
    calc mlen (mset cache requestId _) ≤ mlen cache + 1 := mlen_mset_le cache _ _
      _ ≤ CACHE_maxSize := hlt

theorem processRequestData_mlen_le (now : Nat) (requestId : String)
    (body : ReqBody) (model : String) (cache : StrMap ProcessedRequestData)
    (hlen : mlen cache ≤ CACHE_maxSize)
    (hkeys : ∀ k ∈ mkeys cache, k ≠ "") :
    mlen (processRequestData now requestId body model cache).2
      ≤ CACHE_maxSize := by
  unfold processRequestData
  cases hget : mget cache requestId with
  | some cached =>
    by_cases hfresh : now - cached.timestamp < CACHE_ttl
    · simpa [hfresh] using hlen
    · simp only [hfresh, if_neg (by exact hfresh)]
      exact insertRequestData_mlen_le now requestId body model
        (mdel cache requestId)
        (le_trans (mlen_mdel_le cache requestId) hlen)
        (fun k hk => hkeys k (mkeys_mdel_subset cache requestId k hk))
  | none =>
    exact insertRequestData_mlen_le now requestId body model cache hlen hkeys

theorem nodup_append_cons_not_mem {l1 t : List String} {id : String}
    (h : (l1 ++ id :: t).Nodup) : id ∉ l1 := by
  rw [List.nodup_append] at h
  intro hmem
  exact h.2.2 hmem (List.mem_cons_self id t)

theorem insertAllRequests_window (now : Nat) (body : ReqBody) (model : String)
    (ids : List String) :
    ∀ cache : StrMap ProcessedRequestData,
      (mkeys cache ++ ids).Nodup →
      (∀ k ∈ mkeys cache, k ≠ "") →
      (∀ i ∈ ids, i ≠ "") →
      mlen cache ≤ CACHE_maxSize →
      mkeys (insertAllRequests now body model ids cache)
        = (mkeys cache ++ ids).drop (mlen cache + ids.length - CACHE_maxSize) := by
  induction ids with
  | nil =>
    intro cache hnd hkeys hids hlen
    have hz : mlen cache + ([] : List String).length - CACHE_maxSize = 0 := by
      simp only [List.length_nil, Nat.add_zero]
      exact Nat.sub_eq_zero_of_le hlen
    rw [hz, List.append_nil, List.drop_zero]
    rfl
  | cons id t ih =>
    intro cache hnd hkeys hids hlen
    have hidne : id ≠ "" := hids id (List.mem_cons_self _ _)
    have hidnm : id ∉ mkeys cache := nodup_append_cons_not_mem hnd
    have hget : mget cache id = none :=
      (mget_none_iff_not_mem_mkeys cache id).mpr hidnm
    have hstep : insertAllRequests now body model (id :: t) cache
        = insertAllRequests now body model t
            (processRequestData now id body model cache).2 := rfl
    have hproc : (processRequestData now id body model cache).2
        = mset (evictIfFull cache) id
            ⟨id, (match body.messages with
              | some ms => extractTextFromMessages ms
              | none => ""), model, now⟩ := by
      simp [processRequestData, hget, insertRequestData]
    by_cases hfull : CACHE_maxSize ≤ mlen cache
    · -- cache is exactly at capacity: the oldest entry is evicted
      have hpos : 0 < mlen cache := lt_of_lt_of_le (by decide) hfull
      cases cache with
      | nil => simp [mlen] at hpos
      | cons hd t0 =>
        obtain ⟨k0, v0⟩ := hd
        have hk0 : k0 ≠ "" := hkeys k0 (List.mem_cons_self _ _)
        have hev : evictIfFull ((k0, v0) :: t0) = t0 := by
          simp [evictIfFull, hfull, hk0]
        have hkeyscons : mkeys ((k0, v0) :: t0) = k0 :: mkeys t0 := rfl
        have hidnm0 : id ∉ mkeys t0 := by
          intro hmem
          exact hidnm (hkeyscons ▸ List.mem_cons_of_mem k0 hmem)
        have hget0 : mget t0 id = none :=
          (mget_none_iff_not_mem_mkeys t0 id).mpr hidnm0
        have hkeys' : mkeys (mset t0 id
            (⟨id, (match body.messages with
              | some ms => extractTextFromMessages ms
              | none => ""), model, now⟩ : ProcessedRequestData))
            = mkeys t0 ++ [id] := mkeys_mset_of_absent t0 id _ hget0
        have hlen0 : mlen ((k0, v0) :: t0) = mlen t0 + 1 := rfl
        have hnd' : ((mkeys t0 ++ [id]) ++ t).Nodup := by
          rw [List.append_assoc]
          show (mkeys t0 ++ (id :: t)).Nodup
          have : (k0 :: (mkeys t0 ++ id :: t)).Nodup := by
            rw [hkeyscons, List.cons_append] at hnd
            exact hnd
          exact this.of_cons
        have hres := ih (mset t0 id _)
          (by rw [hkeys']; exact hnd')
          (by
            rw [hkeys']
            intro k hk
            rcases List.mem_append.mp hk with hk | hk
            · exact hkeys k (hkeyscons ▸ List.mem_cons_of_mem k0 hk)
            · rw [List.mem_singleton] at hk
              exact hk ▸ hidne)
          (fun i hi => hids i (List.mem_cons_of_mem id hi))
          (by
            rw [mlen_eq_mkeys_length, hkeys', List.length_append,
              ← mlen_eq_mkeys_length]
            have : mlen t0 + 1 ≤ CACHE_maxSize := by omega
            simpa using this)
        rw [hstep, hproc, hev, hres, hkeys']
        have hmlenset : mlen (mset t0 id
            (⟨id, (match body.messages with
              | some ms => extractTextFromMessages ms
              | none => ""), model, now⟩ : ProcessedRequestData))
            = mlen t0 + 1 := mlen_mset_of_absent t0 id _ hget0
        rw [hmlenset]
        have hmax : mlen ((k0, v0) :: t0) = CACHE_maxSize := le_antisymm hlen hfull
        have hidx1 : mlen t0 + 1 + t.length - CACHE_maxSize = t.length := by
          omega
        have hidx2 : mlen ((k0, v0) :: t0) + (id :: t).length - CACHE_maxSize
            = t.length + 1 := by
          simp only [List.length_cons]
          omega
        rw [hidx1, hidx2, List.append_assoc, hkeyscons]
        simp only [List.cons_append, List.nil_append, List.drop_succ_cons]
    · -- below capacity: plain append
      have hev : evictIfFull cache = cache := by
        simp [evictIfFull, hfull]
      have hkeys' : mkeys (mset cache id
          (⟨id, (match body.messages with
            | some ms => extractTextFromMessages ms
            | none => ""), model, now⟩ : ProcessedRequestData))
          = mkeys cache ++ [id] := mkeys_mset_of_absent cache id _ hget
      have hres := ih (mset cache id _)
        (by
          rw [hkeys', List.append_assoc]
          exact hnd)
        (by
          rw [hkeys']
          intro k hk
          rcases List.mem_append.mp hk with hk | hk
          · exact hkeys k hk
          · rw [List.mem_singleton] at hk
            exact hk ▸ hidne)
        (fun i hi => hids i (List.mem_cons_of_mem id hi))
        (by
          rw [mlen_eq_mkeys_length, hkeys', List.length_append,
            ← mlen_eq_mkeys_length]
          have hlt : mlen cache < CACHE_maxSize := Nat.lt_of_not_le hfull
          simpa using hlt)
      rw [hstep, hproc, hev, hres, hkeys']
      have hmlenset : mlen (mset cache id
          (⟨id, (match body.messages with
            | some ms => extractTextFromMessages ms
            | none => ""), model, now⟩ : ProcessedRequestData))
          = mlen cache + 1 := mlen_mset_of_absent cache id _ hget
      rw [hmlenset]
      have hidx : mlen cache + 1 + t.length = mlen cache + (id :: t).length := by
        simp only [List.length_cons]
        omega
      rw [hidx, List.append_assoc]
      rfl

theorem insertAllRequests_emptyhead (now : Nat) (body : ReqBody)
    (model : String) (ids : List String) :
    ∀ (d : ProcessedRequestData) (t0 : StrMap ProcessedRequestData),
      (mkeys (("", d) :: t0) ++ ids).Nodup →
      mlen (insertAllRequests now body model ids (("", d) :: t0))
        = mlen (("", d) :: t0) + ids.length := by
  induction ids with
  | nil => intro d t0 _; rfl
  | cons id t ih =>
    intro d t0 hnd
    have hkeyscons : mkeys (("", d) :: t0) = "" :: mkeys t0 := rfl
    have hidnm : id ∉ mkeys (("", d) :: t0) := nodup_append_cons_not_mem hnd
    have hidne : id ≠ "" := by
      intro h0
      apply hidnm
      rw [hkeyscons, h0]
      exact List.mem_cons_self "" (mkeys t0)
    have hget : mget (("", d) :: t0) id = none :=
      (mget_none_iff_not_mem_mkeys _ id).mpr hidnm
    have hget0 : mget t0 id = none := by
      have : id ∉ mkeys t0 := by
        intro hmem
        apply hidnm
        rw [hkeyscons]
        exact List.mem_cons_of_mem "" hmem
      exact (mget_none_iff_not_mem_mkeys t0 id).mpr this
    have hev : evictIfFull (("", d) :: t0) = ("", d) :: t0 := by
      simp [evictIfFull]
    have hproc : (processRequestData now id body model (("", d) :: t0)).2
        = ("", d) :: mset t0 id
            ⟨id, (match body.messages with
              | some ms => extractTextFromMessages ms
              | none => ""), model, now⟩ := by
      simp only [processRequestData, hget, insertRequestData, hev]
      show mset (("", d) :: t0) id _ = _
      have hne' : ¬ ("" = id) := fun h0 => hidne h0.symm
      simp [mset, hne']
    have hstep : insertAllRequests now body model (id :: t) (("", d) :: t0)
        = insertAllRequests now body model t
            (processRequestData now id body model (("", d) :: t0)).2 := rfl
    rw [hstep, hproc]
    have hres := ih d (mset t0 id _)
      (by
        have hk : mkeys (("", d) :: mset t0 id
            (⟨id, (match body.messages with
              | some ms => extractTextFromMessages ms
              | none => ""), model, now⟩ : ProcessedRequestData))
            = "" :: (mkeys t0 ++ [id]) := by
          show "" :: mkeys (mset t0 id _) = _
          rw [mkeys_mset_of_absent t0 id _ hget0]
        rw [hk]
        have : (("" :: mkeys t0) ++ (id :: t)).Nodup := by
          rw [hkeyscons] at hnd
          exact hnd
        rw [List.cons_append] at this ⊢
        rw [List.append_assoc]
        exact this)
    rw [hres]
    have hlen' : mlen (("", d) :: mset t0 id
        (⟨id, (match body.messages with
          | some ms => extractTextFromMessages ms
          | none => ""), model, now⟩ : ProcessedRequestData))
        = mlen (("", d) :: t0) + 1 := by
      show mlen (mset t0 id _) + 1 = (mlen t0 + 1) + 1
      rw [mlen_mset_of_absent t0 id _ hget0]
    rw [hlen']
    simp only [List.length_cons]
    omega

/-- C8 amended: for every sequence of distinct NON-EMPTY requestIds
inserted into an empty transient request-data cache, the surviving entries
are exactly the last `min n 1000` of them in insertion order, the
earliest-inserted evicted first each time the bound is reached, and no
single operation on a well-formed cache grows it past 1000 entries; the
non-emptiness proviso is forced by the truthiness eviction guard
`if (firstKey)`, which skips eviction when the oldest key is the empty
string. -/
theorem claim_C8_bounded (now : Nat) (body : ReqBody) (model : String)
    (ids : List String) (h1 : ids.Nodup) (h2 : ∀ i ∈ ids, i ≠ "") :
    mkeys (insertAllRequests now body model ids [])
      = ids.drop (ids.length - CACHE_maxSize)
    ∧ mlen (insertAllRequests now body model ids [])
      = min ids.length CACHE_maxSize
    ∧ (∀ cache requestId, mlen cache ≤ CACHE_maxSize →
        (∀ k ∈ mkeys cache, k ≠ "") →
        mlen (processRequestData now requestId body model cache).2
          ≤ CACHE_maxSize) := by
  have hwin := insertAllRequests_window now body model ids []
    (by simpa using h1) (by simp [mkeys]) h2 (by simp [mlen])
  have hkeys : mkeys (insertAllRequests now body model ids [])
      = ids.drop (ids.length - CACHE_maxSize) := by
    rw [hwin]
    simp [mlen, mkeys]
  refine ⟨hkeys, ?_, ?_⟩
  · rw [mlen_eq_mkeys_length, hkeys, List.length_drop]
    omega
  · intro cache requestId hlen hk
    exact processRequestData_mlen_le now requestId body model cache hlen hk

/-- C8 witness: two distinct non-empty ids below capacity both survive in
insertion order. -/
theorem claim_C8_witness :
    mkeys (insertAllRequests 0 ⟨none⟩ "m" ["a", "b"] []) = ["a", "b"]
    ∧ mlen (insertAllRequests 0 ⟨none⟩ "m" ["a", "b"] []) = 2 := by
  have h := claim_C8_bounded 0 ⟨none⟩ "m" ["a", "b"] (by decide) (by decide)
  refine ⟨?_, ?_⟩
  · rw [h.1]
    rfl
  · rw [h.2.1]
    rfl

/-- C8 counterexample: inserting the empty-string requestId first and then
1000 distinct non-empty requestIds leaves 1001 entries — the cache exceeds
its configured 1000-entry capacity, because the eviction guard
`if (firstKey)` never fires while the oldest key is `""`. -/
theorem claim_C8_counterexample :
    mlen (insertAllRequests 0 ⟨none⟩ "m"
        ((List.range 1000).map (fun i => String.mk (List.replicate (i + 1) 'a')))
        ((processRequestData 0 "" ⟨none⟩ "m" []).2)) = 1001 := by
  have hc1 : (processRequestData 0 "" (⟨none⟩ : ReqBody) "m" []).2
      = [("", ⟨"", "", "m", 0⟩)] := rfl
  rw [hc1]
  have hinj : Function.Injective
      (fun i : Nat => String.mk (List.replicate (i + 1) 'a')) := by
    intro i j hij
    have h2 : List.replicate (i + 1) 'a' = List.replicate (j + 1) 'a' :=
      congrArg String.data hij
    have h3 := congrArg List.length h2
    simp only [List.length_replicate] at h3
    omega
  have hnd : (mkeys [("", (⟨"", "", "m", 0⟩ : ProcessedRequestData))]
      ++ (List.range 1000).map
        (fun i => String.mk (List.replicate (i + 1) 'a'))).Nodup := by
    have hm : mkeys [("", (⟨"", "", "m", 0⟩ : ProcessedRequestData))]
        = [""] := rfl
    rw [hm, List.singleton_append, List.nodup_cons]
    constructor
    · intro hmem
      obtain ⟨i, _, hi⟩ := List.mem_map.mp hmem
      have h2 : List.replicate (i + 1) 'a' = ([] : List Char) :=
        congrArg String.data hi
      have h3 := congrArg List.length h2
      simp only [List.length_replicate, List.length_nil] at h3
      exact absurd h3 (Nat.succ_ne_zero i)
    · exact List.Nodup.map hinj (List.nodup_range 1000)
  have h := insertAllRequests_emptyhead 0 ⟨none⟩ "m"
      ((List.range 1000).map (fun i => String.mk (List.replicate (i + 1) 'a')))
      ⟨"", "", "m", 0⟩ [] hnd
  rw [h]
  simp [mlen, List.length_map, List.length_range]
